import Mathlib

/-!
Shallow embedding of `src/main.ts` of the semver-action repository, together
with the parts of the `semver` npm library (node-semver) that the program
calls: the strict `SemVer` constructor, `semver.compare`, `semver.coerce`
(only its null-test is observed) and `SemVer.inc`.

Conventions of the embedding:
* JS strings are Lean `String`s, manipulated through their `List Char` data
  (the labels this program handles are ASCII, where UTF-16 code-unit
  operations and codepoint operations coincide).
* Machine numbers are `Nat`; node-semver's `MAX_SAFE_INTEGER` guard
  (`+m[i] > Number.MAX_SAFE_INTEGER`) is the exact test `n > 2^53 - 1`,
  since every integer ≤ 2^53 - 1 is exactly representable as a JS number and
  every larger integer rounds to a float ≥ 2^53.
* Fallible code (the throwing `SemVer` constructor, hence `new Version`,
  hence the whole `run`) returns `Except String`; the top-level
  `try`/`catch` with `core.setFailed` is modelled by `run` returning a
  `RunResult` that records the emitted outputs and the failure message.
-/

/-! ### Decimal notation helpers (JS number-to-string and string-to-number) -/

/-- Fuel-driven decimal printer, most significant digit first; mirrors the
canonical decimal rendering `${n}` of a non-negative JS integer.  With fuel
at least `n` the fuel never runs out. -/
def natToDigitsAux : Nat → Nat → List Char → List Char
  | 0, _, acc => acc
  | fuel + 1, n, acc =>
    if n < 10 then Nat.digitChar n :: acc
    else natToDigitsAux fuel (n / 10) (Nat.digitChar (n % 10) :: acc)

/-- Canonical decimal rendering of a `Nat`, modelling JS template
interpolation `${n}` of a non-negative integer. -/
def natRepr (n : Nat) : String :=
  ⟨natToDigitsAux (n + 1) n []⟩

/-- Numeric value of a list of decimal digit characters, most significant
first; models JS string-to-number conversion `+s` on an all-digit string
(exact for values below 2^53, which is where the program consults it). -/
def decDigitsL (l : List Char) : Nat :=
  l.foldl (fun a c => 10 * a + (c.toNat - 48)) 0

/-- Test for node-semver's `NUMERICIDENTIFIER` grammar `0|[1-9]\d*`:
a non-empty all-digit string without a leading zero (unless it is `0`). -/
def validNumIdL (l : List Char) : Bool :=
  !l.isEmpty && l.all Char.isDigit && (l == ['0'] || l.head? != some '0')

/-! ### The semver library model -/

/-- A prerelease identifier as stored by node-semver: all-numeric
identifiers below 2^53 are stored as numbers, the rest as strings. -/
inductive PreId where
  | num (n : Nat)
  | str (s : String)
deriving DecidableEq

/-- Model of a node-semver `SemVer` object.  `raw` is the string the object
was built from (updated by `inc`, read back by this program both for the
outputs and inside `bumpVersion`). -/
structure SemVer where
  raw : String
  major : Nat
  minor : Nat
  patch : Nat
  prerelease : List PreId
  build : List String
deriving DecidableEq

/-- Split a character list at every `'.'`, modelling the decomposition the
`MAINVERSION` regex performs on a `major.minor.patch` string. -/
def splitOnDot : List Char → List (List Char)
  | [] => [[]]
  | c :: rest =>
    if c = '.' then [] :: splitOnDot rest
    else
      match splitOnDot rest with
      | chunk :: more => (c :: chunk) :: more
      | [] => [[c]]

/-- Node-semver's `MAX_SAFE_INTEGER` bound on each numeric component. -/
def maxSafeInteger : Nat := 2 ^ 53 - 1

/-- Models `new semver.SemVer(version)` (strict mode) on the
`major.minor.patch` fragment of the grammar, which is the only shape this
program ever constructs: the `Version` regex hands it a pure
`digits.digits.digits` substring, the fallback hands it `"0.0.0"`, and
`bumpVersion` hands it the canonical `inc` output (whose build list is
empty).  Per the library: a 256-character length cap, a full match of
`NUMERICIDENTIFIER "." NUMERICIDENTIFIER "." NUMERICIDENTIFIER`
(`0|[1-9]\d*`, so leading zeroes are rejected), and a
`MAX_SAFE_INTEGER` bound on each component; otherwise a `TypeError` is
thrown, modelled as `Except.error` with the library's message. -/
def newSemVer (s : String) : Except String SemVer :=
  if s.length > 256 then
    .error "version is longer than 256 characters"
  else
    match splitOnDot s.data with
    | [a, b, c] =>
      if validNumIdL a && validNumIdL b && validNumIdL c then
        if decDigitsL a ≤ maxSafeInteger then
          if decDigitsL b ≤ maxSafeInteger then
            if decDigitsL c ≤ maxSafeInteger then
              .ok ⟨s, decDigitsL a, decDigitsL b, decDigitsL c, [], []⟩
            else .error "Invalid patch version"
          else .error "Invalid minor version"
        else .error "Invalid major version"
      else .error ("Invalid Version: " ++ s)
    | _ => .error ("Invalid Version: " ++ s)

/-- String form of a prerelease or build identifier, as `join('.')` sees it. -/
def PreId.toStr : PreId → String
  | .num n => natRepr n
  | .str s => s

/-- Models JS `Array.prototype.join('.')`. -/
def joinDotted : List String → String
  | [] => ""
  | [x] => x
  | x :: y :: rest => x ++ "." ++ joinDotted (y :: rest)

/-- Models node-semver `SemVer.prototype.format`: the `version` string
`major.minor.patch` plus a `-`-joined prerelease suffix when present
(build metadata is not part of `version`). -/
def SemVer.format (v : SemVer) : String :=
  natRepr v.major ++ "." ++ natRepr v.minor ++ "." ++ natRepr v.patch ++
    (if v.prerelease.isEmpty then "" else "-" ++ joinDotted (v.prerelease.map PreId.toStr))

/-- The three release types this program's `getIncrementLevelFromTitle` can
produce (a restriction of node-semver's `ReleaseType`). -/
inductive ReleaseType where
  | major
  | minor
  | patch
deriving DecidableEq

/-- Models node-semver `SemVer.prototype.inc` for the release types
`major`, `minor` and `patch`, including the pre-major/pre-minor/pre-patch
special cases, the clearing of `prerelease`, and the final update of
`raw` to the formatted version (plus a `+`-joined build suffix when build
metadata is present). -/
def SemVer.inc (v : SemVer) (release : ReleaseType) : SemVer :=
  let v1 : SemVer :=
    match release with
    | .major =>
      if v.minor != 0 || v.patch != 0 || v.prerelease.isEmpty then
        { v with major := v.major + 1, minor := 0, patch := 0, prerelease := [] }
      else
        { v with minor := 0, patch := 0, prerelease := [] }
    | .minor =>
      if v.patch != 0 || v.prerelease.isEmpty then
        { v with minor := v.minor + 1, patch := 0, prerelease := [] }
      else
        { v with patch := 0, prerelease := [] }
    | .patch =>
      if v.prerelease.isEmpty then
        { v with patch := v.patch + 1, prerelease := [] }
      else
        { v with prerelease := [] }
  { v1 with
    raw := v1.format ++ (if v1.build.isEmpty then "" else "+" ++ joinDotted v1.build) }

/-! ### `semver.compare`: three-valued comparison functions -/

/-- Three-valued comparison of naturals (node-semver `compareIdentifiers`
on two numeric identifiers). -/
def cmpNat (a b : Nat) : Int :=
  if a < b then -1 else if b < a then 1 else 0

/-- Three-valued comparison of strings (node-semver `compareIdentifiers`
on two string identifiers: JS `<` on strings, i.e. lexicographic). -/
def cmpStr (a b : String) : Int :=
  if a < b then -1 else if b < a then 1 else 0

/-- Node-semver `compareIdentifiers`: numeric identifiers compare
numerically and rank below string identifiers; strings compare
lexicographically. -/
def cmpId : PreId → PreId → Int
  | .num a, .num b => cmpNat a b
  | .num _, .str _ => -1
  | .str _, .num _ => 1
  | .str a, .str b => cmpStr a b

/-- JS `x || y` on comparison results: the first operand unless it is 0. -/
def lexCmp (c1 c2 : Int) : Int :=
  if c1 = 0 then c2 else c1

/-- Identifier-by-identifier comparison of two prerelease sequences; a
sequence that is a proper prefix of the other ranks lower (the `undefined`
cases of node-semver's `comparePre` loop). -/
def cmpIdList : List PreId → List PreId → Int
  | [], [] => 0
  | [], _ :: _ => -1
  | _ :: _, [] => 1
  | a :: as, b :: bs => lexCmp (cmpId a b) (cmpIdList as bs)

/-- Node-semver `comparePre`: a version with prerelease identifiers ranks
below the same version without, and two non-empty sequences compare
identifier by identifier. -/
def cmpPre : List PreId → List PreId → Int
  | [], [] => 0
  | [], _ :: _ => 1
  | _ :: _, [] => -1
  | a :: as, b :: bs => cmpIdList (a :: as) (b :: bs)

/-- Models `semver.compare`: `compareMain` (major, then minor, then patch,
chained with JS `||`) followed by `comparePre`; build metadata is ignored. -/
def semverCompare (a b : SemVer) : Int :=
  lexCmp (cmpNat a.major b.major)
    (lexCmp (cmpNat a.minor b.minor)
      (lexCmp (cmpNat a.patch b.patch)
        (cmpPre a.prerelease b.prerelease)))

/-! ### The `Version` class and its constructor -/

/-- Model of the program's `Version` class: the original label and the
`SemVer` object built from it. -/
structure Version where
  raw : String
  semver : SemVer
deriving DecidableEq

/-- Attempt to match the regex `\d+\.\d+\.\d+` at the head of the list:
a maximal non-empty digit run, a dot, a maximal non-empty digit run, a
dot, a maximal non-empty digit run.  (For this regex greedy maximal runs
are the only possible matches at a position: a shorter run would leave a
digit where the regex demands `.` or the end of the pattern.) -/
def matchTripleHere (cs : List Char) : Option (List Char × List Char × List Char) :=
  if (cs.takeWhile Char.isDigit).isEmpty then none
  else
    match cs.dropWhile Char.isDigit with
    | '.' :: r2 =>
      if (r2.takeWhile Char.isDigit).isEmpty then none
      else
        match r2.dropWhile Char.isDigit with
        | '.' :: r4 =>
          if (r4.takeWhile Char.isDigit).isEmpty then none
          else some (cs.takeWhile Char.isDigit, r2.takeWhile Char.isDigit,
            r4.takeWhile Char.isDigit)
        | _ => none
    | _ => none

/-- Leftmost match of `\d+\.\d+\.\d+`: JS `String.prototype.match` tries
each start position from the left. -/
def firstTriple : List Char → Option (List Char × List Char × List Char)
  | [] => none
  | c :: rest =>
    match matchTripleHere (c :: rest) with
    | some t => some t
    | none => firstTriple rest

/-- Models `new Version(raw)`: match `raw` against `/(\d+\.\d+\.\d+)/`;
hand the matched substring (only the numeric triple — any prerelease or
build suffix of the label is left behind) to the `SemVer` constructor, or
hand it `"0.0.0"` when there is no match.  The strict `SemVer`
constructor can throw, which propagates. -/
def newVersion (raw : String) : Except String Version :=
  match firstTriple raw.data with
  | some (a, b, c) =>
    (newSemVer ⟨a ++ '.' :: (b ++ '.' :: c)⟩).map (fun sv => ⟨raw, sv⟩)
  | none =>
    (newSemVer "0.0.0").map (fun sv => ⟨raw, sv⟩)

/-! ### The filter, sort, bump and increment-level functions -/

/-- Boolean list-prefix test (JS `String.prototype.startsWith` on the
underlying character sequences). -/
def prefixOfB : List Char → List Char → Bool
  | [], _ => true
  | _ :: _, [] => false
  | a :: p, b :: l => a == b && prefixOfB p l

/-- Models JS `s.startsWith(p)`. -/
def strStartsWith (s p : String) : Bool :=
  prefixOfB p.data s.data

/-- Boolean list-infix test: the pattern occurs, contiguously, somewhere. -/
def infixOfB (p : List Char) : List Char → Bool
  | [] => p.isEmpty
  | c :: rest => prefixOfB p (c :: rest) || infixOfB p rest

/-- Models JS `s.includes(p)`: literal, case-sensitive, unanchored
substring containment. -/
def includesStr (s p : String) : Bool :=
  infixOfB p.data s.data

/-- Lengths of the maximal digit runs of a character list (`cur` carries
the length of the run in progress). -/
def digitRunLensAux : List Char → Nat → List Nat
  | [], 0 => []
  | [], n + 1 => [n + 1]
  | c :: rest, cur =>
    if c.isDigit then digitRunLensAux rest (cur + 1)
    else if cur = 0 then digitRunLensAux rest 0
    else cur :: digitRunLensAux rest 0

/-- Models `semver.coerce(s) !== null`.  The `COERCE` regex
`(^|[^\d])(\d{1,16})(\.(\d{1,16}))?(\.(\d{1,16}))?($|[^\d])` matches
exactly when some maximal digit run of the string has length between 1
and 16 (`MAX_SAFE_COMPONENT_LENGTH`): the first capture must start a
maximal run, and a run longer than 16 leaves a digit after the capture
where the regex demands a non-digit or the end. -/
def coerceOk (s : String) : Bool :=
  (digitRunLensAux s.data 0).any (fun n => n ≤ 16)

/-- The filter callback inside `filterAndSortVersions`: the raw label must
be coercible, must not carry prerelease/build identifiers on its parsed
`semver` when `includePrereleases` is false, and must start with the
prefix. -/
def versionCheck (includePrereleases : Bool) (pre : String) (version : Version) : Bool :=
  let check := coerceOk version.raw
  let check :=
    if !includePrereleases &&
        (version.semver.build.length != 0 || version.semver.prerelease.length != 0) then
      false
    else check
  check && strStartsWith version.raw pre

/-- The descending order used by the sort callback
`(x, y) => semver.compare(y.semver, x.semver)`: `x` may precede `y`
exactly when the comparator is ≤ 0 on `(x, y)`. -/
def sortRel (x y : Version) : Prop :=
  semverCompare y.semver x.semver ≤ 0

instance : DecidableRel sortRel :=
  fun _ _ => inferInstanceAs (Decidable (_ ≤ _))

/-- Models `filterAndSortVersions`: `Array.prototype.filter` with
`versionCheck`, then `Array.prototype.sort` with the comparator above.
ECMAScript's sort is stable, and the comparator is consistent (the
lawfulness lemmas below), so its output is the unique stable descending
reordering — which `List.insertionSort` with `sortRel` computes. -/
def filterAndSortVersions (versions : List Version) (pre : String)
    (includePrereleases : Bool) : List Version :=
  (versions.filter (versionCheck includePrereleases pre)).insertionSort sortRel

/-- Models `bumpVersion`: rebuild a `Version` from the semver's `raw`
string, increment, and parse the incremented `raw` into a fresh
`Version`. -/
def bumpVersion (version : Version) (incrementLevel : ReleaseType) : Except String Version := do
  let tmp ← newVersion version.semver.raw
  newVersion (tmp.semver.inc incrementLevel).raw

/-- Models `getIncrementLevelFromTitle`. -/
def getIncrementLevelFromTitle (title : String) : ReleaseType :=
  if includesStr title "(MAJOR)" then .major
  else if includesStr title "(MINOR)" then .minor
  else if includesStr title "(PATCH)" then .patch
  else .patch

/-! ### The orchestration (`run`) -/

/-- The inputs `run` consumes.  The paginated tag/release retrieval is the
out-of-scope collaborator; it is represented by the two label lists it
would deliver, and the triggering commit message by `commitMessage`. -/
structure RunConfig where
  source : String
  prefixStr : String
  includePrereleases : Bool
  tagLabels : List String
  releaseLabels : List String
  commitMessage : String

/-- What a run did observably: the `core.setOutput` pairs it emitted, and
`core.setFailed`'s message if the `catch` block ran. -/
structure RunResult where
  outputs : List (String × String)
  failureMsg : Option String
deriving DecidableEq

/-- The fallible body of `run` (everything inside the `try`): select the
label source ("tags" or "releases", otherwise throw), parse every label
into a `Version`, filter and sort, take the top-ranked version (or a
fresh `Version('0.0.0')`), resolve the increment level from the commit
message, bump, and return the two outputs read from `semver.raw`. -/
def runCore (cfg : RunConfig) : Except String (String × String) := do
  let labels ←
    if cfg.source = "tags" then Except.ok cfg.tagLabels
    else if cfg.source = "releases" then Except.ok cfg.releaseLabels
    else Except.error (cfg.source ++ " is not a valid value for \"source\"")
  let allVersions ← labels.mapM newVersion
  let filteredAndSortedVersions :=
    filterAndSortVersions allVersions cfg.prefixStr cfg.includePrereleases
  let currentVersion ←
    match filteredAndSortedVersions.head? with
    | some v => Except.ok v
    | none => newVersion "0.0.0"
  let incrementLevel := getIncrementLevelFromTitle cfg.commitMessage
  let nextVersion ← bumpVersion currentVersion incrementLevel
  Except.ok (currentVersion.semver.raw, nextVersion.semver.raw)

/-- Models `run` including its `try`/`catch`: on success the two
`core.setOutput` calls fire (in source order) and there is no failure; on
a thrown error nothing was output (every throw in `runCore` happens
before the first `setOutput`) and `core.setFailed` receives the error. -/
def run (cfg : RunConfig) : RunResult :=
  match runCore cfg with
  | .ok (c, n) => ⟨[("currentVersion", c), ("nextVersion", n)], none⟩
  | .error e => ⟨[], some e⟩

/-! ### Lawfulness of the comparison functions

`semver.compare` is a consistent comparator: antisymmetric, transitive on
its non-positive half, and zero exactly on order-equivalent arguments.
These laws justify the `insertionSort` model of `Array.prototype.sort`
and drive the idempotence proof. -/

theorem cmpNat_antisym (a b : Nat) : cmpNat a b = -cmpNat b a := by
  unfold cmpNat
  split_ifs <;> omega

theorem cmpNat_eq_zero {a b : Nat} (h : cmpNat a b = 0) : a = b := by
  unfold cmpNat at h
  split_ifs at h <;> omega

theorem cmpNat_le_zero {a b : Nat} : cmpNat a b ≤ 0 ↔ a ≤ b := by
  unfold cmpNat
  split_ifs <;> omega

theorem cmpNat_trans {a b c : Nat} (h1 : cmpNat a b ≤ 0) (h2 : cmpNat b c ≤ 0) :
    cmpNat a c ≤ 0 :=
  cmpNat_le_zero.mpr (le_trans (cmpNat_le_zero.mp h1) (cmpNat_le_zero.mp h2))

theorem cmpStr_antisym (a b : String) : cmpStr a b = -cmpStr b a := by
  unfold cmpStr
  rcases lt_trichotomy a b with h | h | h
  · rw [if_pos h, if_neg (lt_asymm h), if_pos h]
  · subst h
    simp
  · rw [if_neg (lt_asymm h), if_pos h, if_pos h]
    decide

theorem cmpStr_eq_zero {a b : String} (h : cmpStr a b = 0) : a = b := by
  unfold cmpStr at h
  split_ifs at h with h1 h2
  · omega
  · exact le_antisymm (not_lt.mp h2) (not_lt.mp h1)

theorem cmpStr_le_zero {a b : String} : cmpStr a b ≤ 0 ↔ a ≤ b := by
  unfold cmpStr
  split_ifs with h1 h2
  · exact iff_of_true (by omega) h1.le
  · exact iff_of_false (by omega) (not_le.mpr h2)
  · exact iff_of_true (by omega) (not_lt.mp h2)

theorem cmpStr_trans {a b c : String} (h1 : cmpStr a b ≤ 0) (h2 : cmpStr b c ≤ 0) :
    cmpStr a c ≤ 0 :=
  cmpStr_le_zero.mpr (le_trans (cmpStr_le_zero.mp h1) (cmpStr_le_zero.mp h2))

theorem cmpId_antisym (a b : PreId) : cmpId a b = -cmpId b a := by
  cases a <;> cases b <;> simp only [cmpId]
  · exact cmpNat_antisym _ _
  · decide
  · exact cmpStr_antisym _ _

theorem cmpId_eq_zero {a b : PreId} (h : cmpId a b = 0) : a = b := by
  cases a <;> cases b <;> simp only [cmpId] at h
  · rw [cmpNat_eq_zero h]
  · omega
  · omega
  · rw [cmpStr_eq_zero h]

theorem cmpId_refl (a : PreId) : cmpId a a = 0 := by
  cases a
  · simp only [cmpId]
    unfold cmpNat
    simp
  · simp only [cmpId]
    unfold cmpStr
    simp

theorem cmpId_trans {a b c : PreId} (h1 : cmpId a b ≤ 0) (h2 : cmpId b c ≤ 0) :
    cmpId a c ≤ 0 := by
  cases a <;> cases b <;> cases c <;> simp only [cmpId] at *
  · exact cmpNat_trans h1 h2
  · decide
  · omega
  · decide
  · omega
  · omega
  · omega
  · exact cmpStr_trans h1 h2

theorem lexCmp_zero_left (c : Int) : lexCmp 0 c = c := by
  unfold lexCmp
  simp

theorem lexCmp_ne {c1 : Int} (h : c1 ≠ 0) (c2 : Int) : lexCmp c1 c2 = c1 := by
  unfold lexCmp
  simp [h]

theorem lexCmp_zero_iff {c1 c2 : Int} : lexCmp c1 c2 = 0 ↔ c1 = 0 ∧ c2 = 0 := by
  unfold lexCmp
  split_ifs with h <;> simp [h]

theorem lexCmp_neg {c1 c2 d1 d2 : Int} (h1 : c1 = -d1) (h2 : c2 = -d2) :
    lexCmp c1 c2 = -lexCmp d1 d2 := by
  unfold lexCmp
  split_ifs <;> omega

/-- Transitivity of the non-positive half of a lexicographic combination
`lexCmp (f x y) (g x y)`, given that `f` is antisymmetric, transitive, and
substitutive at zero, and `g` is transitive. -/
theorem lexCmp_trans {α : Type} (f g : α → α → Int)
    (hfs : ∀ x y, f x y = 0 → ∀ z, f x z = f y z ∧ f z x = f z y)
    (hfa : ∀ x y, f x y = -f y x)
    (hft : ∀ {x y z}, f x y ≤ 0 → f y z ≤ 0 → f x z ≤ 0)
    (hgt : ∀ {x y z}, g x y ≤ 0 → g y z ≤ 0 → g x z ≤ 0)
    {x y z : α}
    (h1 : lexCmp (f x y) (g x y) ≤ 0) (h2 : lexCmp (f y z) (g y z) ≤ 0) :
    lexCmp (f x z) (g x z) ≤ 0 := by
  by_cases hxy : f x y = 0
  · rw [hxy, lexCmp_zero_left] at h1
    by_cases hyz : f y z = 0
    · rw [hyz, lexCmp_zero_left] at h2
      have hxz : f x z = 0 := by rw [(hfs x y hxy z).1]; exact hyz
      rw [hxz, lexCmp_zero_left]
      exact hgt h1 h2
    · rw [lexCmp_ne hyz] at h2
      have hxz : f x z = f y z := (hfs x y hxy z).1
      rw [lexCmp_ne (hxz ▸ hyz), hxz]
      exact h2
  · rw [lexCmp_ne hxy] at h1
    by_cases hyz : f y z = 0
    · have hxz : f x z = f x y := ((hfs y z hyz x).2).symm
      rw [lexCmp_ne (hxz ▸ hxy), hxz]
      exact h1
    · rw [lexCmp_ne hyz] at h2
      have hxz : f x z ≤ 0 := hft h1 h2
      by_cases hz : f x z = 0
      · have h3 : f x y = f z y := (hfs x z hz y).1
        have h4 : f z y = -f y z := hfa z y
        omega
      · rw [lexCmp_ne hz]
        exact hxz

theorem cmpIdList_antisym : ∀ (a b : List PreId), cmpIdList a b = -cmpIdList b a
  | [], [] => by decide
  | [], _ :: _ => by simp [cmpIdList]
  | _ :: _, [] => by simp [cmpIdList]
  | a :: as, b :: bs => by
    simp only [cmpIdList]
    exact lexCmp_neg (cmpId_antisym a b) (cmpIdList_antisym as bs)

theorem cmpIdList_eq_zero : ∀ {a b : List PreId}, cmpIdList a b = 0 → a = b
  | [], [], _ => rfl
  | [], _ :: _, h => absurd h (by simp [cmpIdList])
  | _ :: _, [], h => absurd h (by simp [cmpIdList])
  | a :: as, b :: bs, h => by
    simp only [cmpIdList] at h
    obtain ⟨h1, h2⟩ := lexCmp_zero_iff.mp h
    rw [cmpId_eq_zero h1, cmpIdList_eq_zero h2]

theorem cmpIdList_trans :
    ∀ {a b c : List PreId}, cmpIdList a b ≤ 0 → cmpIdList b c ≤ 0 → cmpIdList a c ≤ 0
  | [], _, [], _, _ => by simp [cmpIdList]
  | [], _, _ :: _, _, _ => by simp [cmpIdList]
  | _ :: _, [], _, h1, _ => by simp [cmpIdList] at h1
  | _ :: _, _ :: _, [], _, h2 => by simp [cmpIdList] at h2
  | x :: xs, y :: ys, z :: zs, h1, h2 => by
    simp only [cmpIdList] at h1 h2 ⊢
    by_cases hxy : cmpId x y = 0
    · cases cmpId_eq_zero hxy
      rw [cmpId_refl, lexCmp_zero_left] at h1
      by_cases hxz : cmpId x z = 0
      · rw [hxz, lexCmp_zero_left] at h2 ⊢
        exact cmpIdList_trans h1 h2
      · rw [lexCmp_ne hxz] at h2 ⊢
        exact h2
    · rw [lexCmp_ne hxy] at h1
      by_cases hyz : cmpId y z = 0
      · cases cmpId_eq_zero hyz
        rw [lexCmp_ne hxy]
        exact h1
      · rw [lexCmp_ne hyz] at h2
        have hxz : cmpId x z ≤ 0 := cmpId_trans h1 h2
        by_cases hz : cmpId x z = 0
        · cases cmpId_eq_zero hz
          have h3 := cmpId_antisym x y
          omega
        · rw [lexCmp_ne hz]
          exact hxz

theorem cmpPre_antisym : ∀ (a b : List PreId), cmpPre a b = -cmpPre b a
  | [], [] => by decide
  | [], _ :: _ => by simp [cmpPre]
  | _ :: _, [] => by simp [cmpPre]
  | _ :: _, _ :: _ => by
    simp only [cmpPre]
    exact cmpIdList_antisym _ _

theorem cmpPre_eq_zero : ∀ {a b : List PreId}, cmpPre a b = 0 → a = b
  | [], [], _ => rfl
  | [], _ :: _, h => absurd h (by simp [cmpPre])
  | _ :: _, [], h => absurd h (by simp [cmpPre])
  | _ :: _, _ :: _, h => cmpIdList_eq_zero h

theorem cmpPre_trans :
    ∀ {a b c : List PreId}, cmpPre a b ≤ 0 → cmpPre b c ≤ 0 → cmpPre a c ≤ 0
  | [], [], _, _, h2 => h2
  | [], _ :: _, _, h1, _ => by simp [cmpPre] at h1
  | _ :: _, [], [], _, _ => by simp [cmpPre]
  | _ :: _, [], _ :: _, _, h2 => by simp [cmpPre] at h2
  | _ :: _, _ :: _, [], _, _ => by simp [cmpPre]
  | _ :: _, _ :: _, _ :: _, h1, h2 => by
    simp only [cmpPre] at h1 h2 ⊢
    exact cmpIdList_trans h1 h2

theorem cmpNat_subst {p q : Nat} (h : cmpNat p q = 0) (w : Nat) :
    cmpNat p w = cmpNat q w ∧ cmpNat w p = cmpNat w q := by
  rw [cmpNat_eq_zero h]
  exact ⟨rfl, rfl⟩

theorem semverCompare_antisym (a b : SemVer) : semverCompare a b = -semverCompare b a := by
  unfold semverCompare
  exact lexCmp_neg (cmpNat_antisym _ _)
    (lexCmp_neg (cmpNat_antisym _ _)
      (lexCmp_neg (cmpNat_antisym _ _) (cmpPre_antisym _ _)))

theorem semverCompare_trans {a b c : SemVer} (h1 : semverCompare a b ≤ 0)
    (h2 : semverCompare b c ≤ 0) : semverCompare a c ≤ 0 := by
  have tPatch : ∀ {x y z : SemVer},
      lexCmp (cmpNat x.patch y.patch) (cmpPre x.prerelease y.prerelease) ≤ 0 →
      lexCmp (cmpNat y.patch z.patch) (cmpPre y.prerelease z.prerelease) ≤ 0 →
      lexCmp (cmpNat x.patch z.patch) (cmpPre x.prerelease z.prerelease) ≤ 0 :=
    fun ha hb =>
      lexCmp_trans (fun u v : SemVer => cmpNat u.patch v.patch)
        (fun u v : SemVer => cmpPre u.prerelease v.prerelease)
        (fun u v huv w => cmpNat_subst huv w.patch)
        (fun u v => cmpNat_antisym _ _)
        cmpNat_trans cmpPre_trans ha hb
  have tMinor : ∀ {x y z : SemVer},
      lexCmp (cmpNat x.minor y.minor)
        (lexCmp (cmpNat x.patch y.patch) (cmpPre x.prerelease y.prerelease)) ≤ 0 →
      lexCmp (cmpNat y.minor z.minor)
        (lexCmp (cmpNat y.patch z.patch) (cmpPre y.prerelease z.prerelease)) ≤ 0 →
      lexCmp (cmpNat x.minor z.minor)
        (lexCmp (cmpNat x.patch z.patch) (cmpPre x.prerelease z.prerelease)) ≤ 0 :=
    fun ha hb =>
      lexCmp_trans (fun u v : SemVer => cmpNat u.minor v.minor)
        (fun u v : SemVer => lexCmp (cmpNat u.patch v.patch) (cmpPre u.prerelease v.prerelease))
        (fun u v huv w => cmpNat_subst huv w.minor)
        (fun u v => cmpNat_antisym _ _)
        cmpNat_trans tPatch ha hb
  unfold semverCompare at h1 h2 ⊢
  exact
    lexCmp_trans (fun u v : SemVer => cmpNat u.major v.major)
      (fun u v : SemVer => lexCmp (cmpNat u.minor v.minor)
        (lexCmp (cmpNat u.patch v.patch) (cmpPre u.prerelease v.prerelease)))
      (fun u v huv w => cmpNat_subst huv w.major)
      (fun u v => cmpNat_antisym _ _)
      cmpNat_trans tMinor h1 h2

instance : IsTrans Version sortRel :=
  ⟨fun _ _ _ h1 h2 => semverCompare_trans h2 h1⟩

instance : IsTotal Version sortRel :=
  ⟨fun x y => by
    have h := semverCompare_antisym y.semver x.semver
    unfold sortRel
    omega⟩

/-- C10: Filtering is idempotent: for every sequence of Versions, prefix,
and includePrereleases flag, applying the filter-and-sort operation to its
own output with the same parameters returns the same sequence unchanged. -/
theorem filterAndSortVersions_idempotent (versions : List Version) (pre : String)
    (includePrereleases : Bool) :
    filterAndSortVersions (filterAndSortVersions versions pre includePrereleases)
        pre includePrereleases =
      filterAndSortVersions versions pre includePrereleases := by
  unfold filterAndSortVersions
  have hmem : ∀ a ∈ (versions.filter (versionCheck includePrereleases pre)).insertionSort
      sortRel, versionCheck includePrereleases pre a = true := by
    intro a ha
    exact (List.mem_filter.mp ((List.mem_insertionSort sortRel).mp ha)).2
  rw [List.filter_eq_self.mpr hmem]
  exact List.Sorted.insertionSort_eq (List.sorted_insertionSort sortRel _)

/-! ### Properties of the decimal printer and reader -/

theorem dch_val : ∀ n, n < 10 → (Nat.digitChar n).toNat - 48 = n := by decide

theorem dch_isDigit : ∀ n, n < 10 → (Nat.digitChar n).isDigit = true := by decide

theorem dch_ne_zero : ∀ n, n < 10 → 0 < n → Nat.digitChar n ≠ '0' := by decide

theorem natToDigitsAux_acc : ∀ (fuel n : Nat) (acc : List Char), n ≤ fuel →
    natToDigitsAux fuel n acc = natToDigitsAux fuel n [] ++ acc
  | 0, _, acc, _ => by simp [natToDigitsAux]
  | fuel + 1, n, acc, h => by
    by_cases h10 : n < 10
    · simp [natToDigitsAux, h10]
    · have hd : n / 10 ≤ fuel := by
        have := Nat.div_lt_self (by omega : 0 < n) (by omega : 1 < 10)
        omega
      simp only [natToDigitsAux, if_neg h10]
      rw [natToDigitsAux_acc fuel (n / 10) _ hd,
        natToDigitsAux_acc fuel (n / 10) [Nat.digitChar (n % 10)] hd]
      simp

theorem decDigitsL_append_singleton (l : List Char) (c : Char) :
    decDigitsL (l ++ [c]) = 10 * decDigitsL l + (c.toNat - 48) := by
  simp [decDigitsL, List.foldl_append]

theorem decDigits_toDigits : ∀ (fuel n : Nat), n ≤ fuel →
    decDigitsL (natToDigitsAux fuel n []) = n
  | 0, n, h => by
    simp only [natToDigitsAux]
    simp [decDigitsL]
    omega
  | fuel + 1, n, h => by
    by_cases h10 : n < 10
    · simp only [natToDigitsAux, if_pos h10]
      have := dch_val n h10
      simp [decDigitsL]
      omega
    · have hd : n / 10 ≤ fuel := by
        have := Nat.div_lt_self (by omega : 0 < n) (by omega : 1 < 10)
        omega
      simp only [natToDigitsAux, if_neg h10]
      rw [natToDigitsAux_acc fuel (n / 10) _ hd, decDigitsL_append_singleton,
        decDigits_toDigits fuel (n / 10) hd]
      have := dch_val (n % 10) (Nat.mod_lt n (by omega))
      omega

theorem toDigits_all_digit : ∀ (fuel n : Nat), n ≤ fuel →
    (natToDigitsAux fuel n []).all Char.isDigit = true
  | 0, _, _ => rfl
  | fuel + 1, n, h => by
    by_cases h10 : n < 10
    · simp [natToDigitsAux, h10, dch_isDigit n h10]
    · have hd : n / 10 ≤ fuel := by
        have := Nat.div_lt_self (by omega : 0 < n) (by omega : 1 < 10)
        omega
      simp only [natToDigitsAux, if_neg h10]
      rw [natToDigitsAux_acc fuel (n / 10) _ hd]
      rw [List.all_append]
      simp [toDigits_all_digit fuel (n / 10) hd,
        dch_isDigit (n % 10) (Nat.mod_lt n (by omega))]

theorem toDigits_ne_nil : ∀ (fuel n : Nat), n < fuel → natToDigitsAux fuel n [] ≠ []
  | fuel + 1, n, h => by
    by_cases h10 : n < 10
    · simp [natToDigitsAux, h10]
    · have hd : n / 10 ≤ fuel := by
        have := Nat.div_lt_self (by omega : 0 < n) (by omega : 1 < 10)
        omega
      simp only [natToDigitsAux, if_neg h10]
      rw [natToDigitsAux_acc fuel (n / 10) _ hd]
      simp

theorem toDigits_head_ne_zero : ∀ (fuel n : Nat), n < fuel → 0 < n →
    (natToDigitsAux fuel n []).head? ≠ some '0'
  | fuel + 1, n, h, hn => by
    by_cases h10 : n < 10
    · simp [natToDigitsAux, h10, dch_ne_zero n h10 hn]
    · have hlt : n / 10 < fuel := by
        have := Nat.div_lt_self (by omega : 0 < n) (by omega : 1 < 10)
        omega
      have hpos : 0 < n / 10 := Nat.div_pos (by omega) (by omega)
      simp only [natToDigitsAux, if_neg h10]
      rw [natToDigitsAux_acc fuel (n / 10) _ (le_of_lt hlt)]
      obtain ⟨c, t, hct⟩ :=
        List.exists_cons_of_ne_nil (toDigits_ne_nil fuel (n / 10) hlt)
      have hh := toDigits_head_ne_zero fuel (n / 10) hlt hpos
      rw [hct] at hh ⊢
      simpa using hh

theorem natRepr_data (n : Nat) : (natRepr n).data = natToDigitsAux (n + 1) n [] := rfl

theorem natRepr_decDigits (n : Nat) : decDigitsL (natRepr n).data = n :=
  decDigits_toDigits (n + 1) n (by omega)

theorem natRepr_valid (n : Nat) : validNumIdL (natRepr n).data = true := by
  rcases Nat.eq_zero_or_pos n with h | h
  · subst h
    decide
  · rw [natRepr_data]
    unfold validNumIdL
    have h1 := toDigits_ne_nil (n + 1) n (by omega)
    have h2 := toDigits_all_digit (n + 1) n (by omega)
    have h3 := toDigits_head_ne_zero (n + 1) n (by omega) h
    simp [h2, List.isEmpty_iff, h1, h3]

theorem natRepr_ne_nil (n : Nat) : (natRepr n).data ≠ [] := by
  rw [natRepr_data]
  exact toDigits_ne_nil (n + 1) n (by omega)

theorem natRepr_all_digit (n : Nat) : (natRepr n).data.all Char.isDigit = true := by
  rw [natRepr_data]
  exact toDigits_all_digit (n + 1) n (by omega)

/-! ### Lemmas about splitting, matching and the constructors -/

theorem takeWhile_append_stop {p : Char → Bool} :
    ∀ (l : List Char) (x : Char) (t : List Char), l.all p = true → p x = false →
      (l ++ x :: t).takeWhile p = l ∧ (l ++ x :: t).dropWhile p = x :: t
  | [], x, t, _, hx => by simp [List.takeWhile, List.dropWhile, hx]
  | c :: l, x, t, hall, hx => by
    simp only [List.all_cons, Bool.and_eq_true] at hall
    have ih := takeWhile_append_stop l x t hall.2 hx
    simp [List.takeWhile, List.dropWhile, hall.1, ih.1, ih.2]

theorem takeWhile_of_all {p : Char → Bool} :
    ∀ (l : List Char), l.all p = true → l.takeWhile p = l
  | [], _ => rfl
  | c :: l, hall => by
    simp only [List.all_cons, Bool.and_eq_true] at hall
    simp [List.takeWhile, hall.1, takeWhile_of_all l hall.2]

theorem digit_not_dot {ch : Char} (h : ch.isDigit = true) : ¬ch = '.' := by
  rintro rfl
  exact absurd h (by decide)

theorem all_digit_all_not_dot {l : List Char} (h : l.all Char.isDigit = true) :
    l.all (fun ch => !ch == '.') = true := by
  rw [List.all_eq_true] at h ⊢
  intro x hx
  simpa using digit_not_dot (h x hx)

theorem splitOnDot_ne_nil : ∀ (l : List Char), splitOnDot l ≠ []
  | [] => by simp [splitOnDot]
  | c :: rest => by
    unfold splitOnDot
    split_ifs
    · simp
    · split <;> simp

theorem splitOnDot_append_dot :
    ∀ (l t : List Char), l.all (fun ch => !ch == '.') = true →
      splitOnDot (l ++ '.' :: t) = l :: splitOnDot t
  | [], t, _ => by simp [splitOnDot]
  | c :: l, t, hall => by
    simp only [List.all_cons, Bool.and_eq_true] at hall
    have hc : ¬c = '.' := by simpa using hall.1
    have ih := splitOnDot_append_dot l t hall.2
    show splitOnDot (c :: (l ++ '.' :: t)) = (c :: l) :: splitOnDot t
    rw [splitOnDot, if_neg hc, ih]

theorem splitOnDot_of_no_dot :
    ∀ (l : List Char), l.all (fun ch => !ch == '.') = true → splitOnDot l = [l]
  | [], _ => rfl
  | c :: l, hall => by
    simp only [List.all_cons, Bool.and_eq_true] at hall
    have hc : ¬c = '.' := by simpa using hall.1
    simp only [splitOnDot, if_neg hc]
    rw [splitOnDot_of_no_dot l hall.2]

/-- On a string that is exactly `digits.digits.digits`, `splitOnDot`
recovers the three digit groups. -/
theorem splitOnDot_triple {a b c : List Char} (ha : a.all Char.isDigit = true)
    (hb : b.all Char.isDigit = true) (hc : c.all Char.isDigit = true) :
    splitOnDot (a ++ '.' :: (b ++ '.' :: c)) = [a, b, c] := by
  rw [splitOnDot_append_dot a _ (all_digit_all_not_dot ha),
    splitOnDot_append_dot b _ (all_digit_all_not_dot hb),
    splitOnDot_of_no_dot c (all_digit_all_not_dot hc)]

/-- The regex `\d+\.\d+\.\d+` matched at the head of a string that is
exactly `digits.digits.digits` yields the three digit groups. -/
theorem matchTripleHere_triple {a b c : List Char} (ha : a ≠ []) (hb : b ≠ []) (hc : c ≠ [])
    (hda : a.all Char.isDigit = true) (hdb : b.all Char.isDigit = true)
    (hdc : c.all Char.isDigit = true) :
    matchTripleHere (a ++ '.' :: (b ++ '.' :: c)) = some (a, b, c) := by
  have hdot : ('.' : Char).isDigit = false := by decide
  have h1 := takeWhile_append_stop a '.' (b ++ '.' :: c) hda hdot
  have h2 := takeWhile_append_stop b '.' c hdb hdot
  unfold matchTripleHere
  rw [h1.1, h1.2]
  simp only [List.isEmpty_iff, ha, if_neg]
  rw [h2.1, h2.2]
  simp only [List.isEmpty_iff, hb, if_neg]
  rw [takeWhile_of_all c hdc]
  simp [List.isEmpty_iff, hc]

/-- The leftmost regex match on a string that is exactly
`digits.digits.digits` is the whole string, split at the dots. -/
theorem firstTriple_triple {a b c : List Char} (ha : a ≠ []) (hb : b ≠ []) (hc : c ≠ [])
    (hda : a.all Char.isDigit = true) (hdb : b.all Char.isDigit = true)
    (hdc : c.all Char.isDigit = true) :
    firstTriple (a ++ '.' :: (b ++ '.' :: c)) = some (a, b, c) := by
  obtain ⟨a0, a1, rfl⟩ := List.exists_cons_of_ne_nil ha
  rw [List.cons_append]
  unfold firstTriple
  rw [← List.cons_append, matchTripleHere_triple ha hb hc hda hdb hdc]

theorem exceptMap_ok {α β : Type} {f : α → β} {e : Except String α} {y : β}
    (h : e.map f = .ok y) : ∃ x, e = .ok x ∧ y = f x := by
  cases e with
  | error e => simp [Except.map] at h
  | ok x =>
    refine ⟨x, rfl, ?_⟩
    simpa [Except.map] using h.symm

/-- Inversion of the strict `SemVer` constructor: success tells exactly
what the string and the resulting object look like. -/
theorem newSemVer_ok {s : String} {sv : SemVer} (h : newSemVer s = .ok sv) :
    s.length ≤ 256 ∧ ∃ a b c, splitOnDot s.data = [a, b, c] ∧
      validNumIdL a = true ∧ validNumIdL b = true ∧ validNumIdL c = true ∧
      decDigitsL a ≤ maxSafeInteger ∧ decDigitsL b ≤ maxSafeInteger ∧
      decDigitsL c ≤ maxSafeInteger ∧
      sv = ⟨s, decDigitsL a, decDigitsL b, decDigitsL c, [], []⟩ := by
  unfold newSemVer at h
  split_ifs at h with hlen
  split at h
  all_goals try exact Except.noConfusion h
  split_ifs at h with h1 h2 h3 h4
  cases h
  simp only [Bool.and_eq_true] at h1
  rename_i a b c heq
  exact ⟨by omega, a, b, c, heq, h1.1.1, h1.1.2, h1.2, h2, h3, h4, rfl⟩

/-- Inversion of the `Version` constructor: every `Version` it produces
keeps the original label in `raw` and carries a `SemVer` with empty
prerelease and build sequences. -/
theorem newVersion_ok {raw : String} {v : Version} (h : newVersion raw = .ok v) :
    v.raw = raw ∧ v.semver.prerelease = [] ∧ v.semver.build = [] := by
  unfold newVersion at h
  split at h
  · obtain ⟨sv, hsv, hv⟩ := exceptMap_ok h
    obtain ⟨-, a, b, c, -, -, -, -, -, -, -, hshape⟩ := newSemVer_ok hsv
    subst hv
    simp [hshape]
  · obtain ⟨sv, hsv, hv⟩ := exceptMap_ok h
    obtain ⟨-, a, b, c, -, -, -, -, -, -, -, hshape⟩ := newSemVer_ok hsv
    subst hv
    simp [hshape]

/-- C2: For every raw label string, the Version constructor produces a
semver whose prerelease sequence and build sequence are both empty,
because only the first `digits.digits.digits` substring is handed to the
SemVer constructor; consequently the prerelease/build exclusion branch of
the filter never rejects any constructor-produced Version: on such a
Version the filter test collapses to the coercibility and prefix
conditions alone, whatever `includePrereleases` is. -/
theorem constructor_strips_prerelease :
    ∀ (raw : String) (v : Version), newVersion raw = .ok v →
      v.semver.prerelease = [] ∧ v.semver.build = [] ∧
      ∀ (includePrereleases : Bool) (pre : String),
        versionCheck includePrereleases pre v =
          (coerceOk v.raw && strStartsWith v.raw pre) := by
  intro raw v h
  obtain ⟨-, hpre, hbuild⟩ := newVersion_ok h
  refine ⟨hpre, hbuild, ?_⟩
  intro includePrereleases pre
  unfold versionCheck
  rw [hpre, hbuild]
  simp

/-- Witness for C2 at the label `"v1.0.0"` with `includePrereleases`
false: the filter test collapses to coercibility plus prefix. -/
theorem constructor_strips_prerelease_witness :
    versionCheck false "v" ⟨"v1.0.0", ⟨"1.0.0", 1, 0, 0, [], []⟩⟩ =
      (coerceOk "v1.0.0" && strStartsWith "v1.0.0" "v") :=
  (constructor_strips_prerelease "v1.0.0" ⟨"v1.0.0", ⟨"1.0.0", 1, 0, 0, [], []⟩⟩
    rfl).2.2 false "v"

theorem takeWhile_all_digit (l : List Char) :
    (l.takeWhile Char.isDigit).all Char.isDigit = true := by
  rw [List.all_eq_true]
  intro x hx
  exact List.mem_takeWhile_imp hx

/-- Inversion of a regex match at a fixed position: the three captured
groups are non-empty digit runs. -/
theorem matchTripleHere_some {l : List Char} {a b c : List Char}
    (h : matchTripleHere l = some (a, b, c)) :
    a ≠ [] ∧ a.all Char.isDigit = true ∧ b ≠ [] ∧ b.all Char.isDigit = true ∧
      c ≠ [] ∧ c.all Char.isDigit = true := by
  unfold matchTripleHere at h
  split_ifs at h with h1
  split at h
  all_goals try exact Option.noConfusion h
  split_ifs at h with h2
  split at h
  all_goals try exact Option.noConfusion h
  split_ifs at h with h3
  cases h
  refine ⟨by simpa [List.isEmpty_iff] using h1, takeWhile_all_digit _,
    by simpa [List.isEmpty_iff] using h2, takeWhile_all_digit _,
    by simpa [List.isEmpty_iff] using h3, takeWhile_all_digit _⟩

/-- Inversion of the leftmost regex match: the three captured groups are
non-empty digit runs. -/
theorem firstTriple_some :
    ∀ {l a b c : List Char}, firstTriple l = some (a, b, c) →
      a ≠ [] ∧ a.all Char.isDigit = true ∧ b ≠ [] ∧ b.all Char.isDigit = true ∧
        c ≠ [] ∧ c.all Char.isDigit = true := by
  intro l
  induction l with
  | nil => intro a b c h; exact Option.noConfusion h
  | cons x rest ih =>
    intro a b c h
    unfold firstTriple at h
    split at h
    · cases h
      rename_i heq
      exact matchTripleHere_some heq
    · exact ih h

/-- C4 counterexample: for the raw label `"v1.02.3"` the parser extracts
the first `digits.digits.digits` substring `1.02.3`, but it does NOT use
it as major.minor.patch of a resulting `Version`, nor does it fall back
to `0.0.0`: the strict `SemVer` constructor rejects the leading-zero
component `02` and the `Version` constructor throws. -/
theorem parser_extraction_counterexample :
    firstTriple "v1.02.3".data = some (['1'], ['0', '2'], ['3']) ∧
      newVersion "v1.02.3" = .error "Invalid Version: 1.02.3" :=
  ⟨rfl, rfl⟩

/-- Inversion of the `Version` constructor when the regex matched: the
resulting semver is built from exactly the matched digit groups. -/
theorem newVersion_ok_triple {raw : String} {a b c : List Char} {v : Version}
    (hsome : firstTriple raw.data = some (a, b, c)) (hok : newVersion raw = .ok v) :
    v.raw = raw ∧
      v.semver = ⟨⟨a ++ '.' :: (b ++ '.' :: c)⟩, decDigitsL a, decDigitsL b,
        decDigitsL c, [], []⟩ := by
  obtain ⟨ha, hda, hb, hdb, hc, hdc⟩ := firstTriple_some hsome
  unfold newVersion at hok
  rw [hsome] at hok
  obtain ⟨sv, hsv, hv⟩ := exceptMap_ok hok
  obtain ⟨hlen, a1, b1, c1, heq, -, -, -, -, -, -, hshape⟩ := newSemVer_ok hsv
  have hsplit : splitOnDot (String.mk (a ++ '.' :: (b ++ '.' :: c))).data = [a, b, c] :=
    splitOnDot_triple hda hdb hdc
  rw [hsplit] at heq
  injection heq with e1 heq
  injection heq with e2 heq
  injection heq with e3 e4
  subst e1
  subst e2
  subst e3
  subst hv
  exact ⟨rfl, hshape⟩

/-- When the regex matched but the matched triple violates the strict
constructor's side conditions, the `Version` constructor throws. -/
theorem newVersion_error_triple {raw : String} {a b c : List Char}
    (hsome : firstTriple raw.data = some (a, b, c))
    (hnot : ¬(validNumIdL a = true ∧ validNumIdL b = true ∧ validNumIdL c = true ∧
      decDigitsL a ≤ maxSafeInteger ∧ decDigitsL b ≤ maxSafeInteger ∧
      decDigitsL c ≤ maxSafeInteger ∧
      (String.mk (a ++ '.' :: (b ++ '.' :: c))).length ≤ 256)) :
    ∃ e, newVersion raw = .error e := by
  obtain ⟨ha, hda, hb, hdb, hc, hdc⟩ := firstTriple_some hsome
  cases hsv : newSemVer ⟨a ++ '.' :: (b ++ '.' :: c)⟩ with
  | error e =>
    refine ⟨e, ?_⟩
    unfold newVersion
    rw [hsome]
    show Except.map (fun sv => ({ raw := raw, semver := sv } : Version))
        (newSemVer ⟨a ++ '.' :: (b ++ '.' :: c)⟩) = Except.error e
    rw [hsv]
    rfl
  | ok sv =>
    exfalso
    apply hnot
    obtain ⟨hlen, a1, b1, c1, heq, hv1, hv2, hv3, hm1, hm2, hm3, -⟩ := newSemVer_ok hsv
    have hsplit : splitOnDot (String.mk (a ++ '.' :: (b ++ '.' :: c))).data = [a, b, c] :=
      splitOnDot_triple hda hdb hdc
    rw [hsplit] at heq
    injection heq with e1 heq
    injection heq with e2 heq
    injection heq with e3 e4
    subst e1
    subst e2
    subst e3
    exact ⟨hv1, hv2, hv3, hm1, hm2, hm3, hlen⟩

/-- C4 (amended): for every raw label, the parser takes the first
substring matching `digits.digits.digits` (ignoring any prefix text
before it): when there is no such substring the resulting semantic is
exactly `0.0.0` with empty prerelease and build; when there is one and a
Version is produced, its major/minor/patch are exactly the numeric values
of the three matched digit groups and its prerelease/build are empty; a
matched triple whose components the strict SemVer constructor rejects (a
leading zero, a value above 2^53 − 1, or a string longer than the
256-character cap) makes the constructor throw instead. -/
theorem parser_extraction_amended :
    ∀ raw : String,
      (firstTriple raw.data = none →
        newVersion raw = .ok ⟨raw, ⟨"0.0.0", 0, 0, 0, [], []⟩⟩) ∧
      (∀ a b c (v : Version), firstTriple raw.data = some (a, b, c) →
        newVersion raw = .ok v →
        v.raw = raw ∧
          v.semver = ⟨⟨a ++ '.' :: (b ++ '.' :: c)⟩, decDigitsL a, decDigitsL b,
            decDigitsL c, [], []⟩) ∧
      (∀ a b c, firstTriple raw.data = some (a, b, c) →
        ¬(validNumIdL a = true ∧ validNumIdL b = true ∧ validNumIdL c = true ∧
            decDigitsL a ≤ maxSafeInteger ∧ decDigitsL b ≤ maxSafeInteger ∧
            decDigitsL c ≤ maxSafeInteger ∧
            (String.mk (a ++ '.' :: (b ++ '.' :: c))).length ≤ 256) →
        ∃ e, newVersion raw = .error e) := by
  intro raw
  refine ⟨?_, fun a b c v hsome hok => newVersion_ok_triple hsome hok,
    fun a b c hsome hnot => newVersion_error_triple hsome hnot⟩
  intro h
  unfold newVersion
  rw [h]
  rfl

theorem parser_extraction_amended_witness :
    (⟨"v1.2.3", ⟨"1.2.3", 1, 2, 3, [], []⟩⟩ : Version).raw = "v1.2.3" ∧
      (⟨"v1.2.3", ⟨"1.2.3", 1, 2, 3, [], []⟩⟩ : Version).semver =
        ⟨⟨['1'] ++ '.' :: (['2'] ++ '.' :: ['3'])⟩, decDigitsL ['1'], decDigitsL ['2'],
          decDigitsL ['3'], [], []⟩ :=
  (parser_extraction_amended "v1.2.3").2.1 ['1'] ['2'] ['3']
    ⟨"v1.2.3", ⟨"1.2.3", 1, 2, 3, [], []⟩⟩ rfl rfl

/-! ### Bumping -/

theorem format_of_clean (sv : SemVer) (h : sv.prerelease = []) :
    sv.format = natRepr sv.major ++ "." ++ natRepr sv.minor ++ "." ++ natRepr sv.patch := by
  unfold SemVer.format
  rw [h]
  simp

/-- `inc` on a `SemVer` with empty prerelease and build (the only kind the
`Version` constructor produces) increments the fields and sets `raw` to
the canonical `major.minor.patch` string. -/
theorem inc_clean {sv : SemVer} (lvl : ReleaseType) (hpre : sv.prerelease = [])
    (hbuild : sv.build = []) :
    ∃ M m p, sv.inc lvl =
      ⟨natRepr M ++ "." ++ natRepr m ++ "." ++ natRepr p, M, m, p, [], []⟩ := by
  cases lvl
  · exact ⟨sv.major + 1, 0, 0, by simp [SemVer.inc, SemVer.format, hpre, hbuild]⟩
  · exact ⟨sv.major, sv.minor + 1, 0, by simp [SemVer.inc, SemVer.format, hpre, hbuild]⟩
  · exact ⟨sv.major, sv.minor, sv.patch + 1, by simp [SemVer.inc, SemVer.format, hpre, hbuild]⟩

/-- C6: bumping `patch` on 1.2.3 yields 1.2.4, `minor` yields 1.3.0,
`major` yields 2.0.0; and for every input Version and level, a successful
bump returns a Version with empty prerelease and build whose `raw` (and
whose semver's `raw`) is the canonical string form of the new semantic
version, not the original raw label. -/
theorem bumpVersion_spec :
    bumpVersion ⟨"1.2.3", ⟨"1.2.3", 1, 2, 3, [], []⟩⟩ .patch =
        .ok ⟨"1.2.4", ⟨"1.2.4", 1, 2, 4, [], []⟩⟩ ∧
    bumpVersion ⟨"1.2.3", ⟨"1.2.3", 1, 2, 3, [], []⟩⟩ .minor =
        .ok ⟨"1.3.0", ⟨"1.3.0", 1, 3, 0, [], []⟩⟩ ∧
    bumpVersion ⟨"1.2.3", ⟨"1.2.3", 1, 2, 3, [], []⟩⟩ .major =
        .ok ⟨"2.0.0", ⟨"2.0.0", 2, 0, 0, [], []⟩⟩ ∧
    ∀ (v : Version) (lvl : ReleaseType) (w : Version),
      bumpVersion v lvl = .ok w →
      w.semver.prerelease = [] ∧ w.semver.build = [] ∧
        w.raw = SemVer.format w.semver ∧ w.semver.raw = w.raw := by
  refine ⟨rfl, rfl, rfl, ?_⟩
  intro v lvl w h
  unfold bumpVersion at h
  cases htmp : newVersion v.semver.raw with
  | error e =>
    rw [htmp] at h
    exact Except.noConfusion h
  | ok tmp =>
    rw [htmp] at h
    replace h : newVersion (tmp.semver.inc lvl).raw = .ok w := h
    obtain ⟨-, hpre, hbuild⟩ := newVersion_ok htmp
    obtain ⟨M, m, p, hinc⟩ := inc_clean lvl hpre hbuild
    rw [hinc] at h
    replace h : newVersion (natRepr M ++ "." ++ natRepr m ++ "." ++ natRepr p) = .ok w := h
    have hdata : (natRepr M ++ "." ++ natRepr m ++ "." ++ natRepr p).data
        = (natRepr M).data ++ '.' :: ((natRepr m).data ++ '.' :: (natRepr p).data) := by
      simp [String.data_append]
    have hft : firstTriple (natRepr M ++ "." ++ natRepr m ++ "." ++ natRepr p).data
        = some ((natRepr M).data, (natRepr m).data, (natRepr p).data) := by
      rw [hdata]
      exact firstTriple_triple (natRepr_ne_nil M) (natRepr_ne_nil m) (natRepr_ne_nil p)
        (natRepr_all_digit M) (natRepr_all_digit m) (natRepr_all_digit p)
    obtain ⟨hwraw, hwsem⟩ := newVersion_ok_triple hft h
    have hmk : (⟨(natRepr M).data ++ '.' :: ((natRepr m).data ++ '.' :: (natRepr p).data)⟩ :
        String) = natRepr M ++ "." ++ natRepr m ++ "." ++ natRepr p := by
      rw [← hdata]
    refine ⟨by rw [hwsem], by rw [hwsem], ?_, ?_⟩
    · rw [hwraw, hwsem]
      have hfm := format_of_clean
        ⟨⟨(natRepr M).data ++ '.' :: ((natRepr m).data ++ '.' :: (natRepr p).data)⟩,
          decDigitsL (natRepr M).data, decDigitsL (natRepr m).data,
          decDigitsL (natRepr p).data, [], []⟩ rfl
      rw [hfm]
      simp only [natRepr_decDigits]
    · rw [hwsem, hwraw]
      exact hmk

/-- Witness for C6: bumping the constructor-produced Version for the
label `"v9.9.9"` by `patch` succeeds and the result satisfies the
clearing and canonical-raw properties. -/
theorem bumpVersion_spec_witness :
    (⟨"9.9.10", ⟨"9.9.10", 9, 9, 10, [], []⟩⟩ : Version).semver.prerelease = [] ∧
      (⟨"9.9.10", ⟨"9.9.10", 9, 9, 10, [], []⟩⟩ : Version).semver.build = [] ∧
      (⟨"9.9.10", ⟨"9.9.10", 9, 9, 10, [], []⟩⟩ : Version).raw =
        SemVer.format (⟨"9.9.10", ⟨"9.9.10", 9, 9, 10, [], []⟩⟩ : Version).semver ∧
      (⟨"9.9.10", ⟨"9.9.10", 9, 9, 10, [], []⟩⟩ : Version).semver.raw =
        (⟨"9.9.10", ⟨"9.9.10", 9, 9, 10, [], []⟩⟩ : Version).raw :=
  bumpVersion_spec.2.2.2 ⟨"v9.9.9", ⟨"9.9.9", 9, 9, 9, [], []⟩⟩ .patch
    ⟨"9.9.10", ⟨"9.9.10", 9, 9, 10, [], []⟩⟩ rfl

/-! ### Substring containment and the increment resolver -/

theorem prefixOfB_iff : ∀ (p l : List Char), prefixOfB p l = true ↔ ∃ t, l = p ++ t
  | [], l => by simp [prefixOfB]
  | a :: p, [] => by simp [prefixOfB]
  | a :: p, b :: l => by
    simp only [prefixOfB, Bool.and_eq_true, beq_iff_eq]
    constructor
    · rintro ⟨rfl, h⟩
      obtain ⟨t, rfl⟩ := (prefixOfB_iff p l).mp h
      exact ⟨t, rfl⟩
    · rintro ⟨t, ht⟩
      injection ht with h1 h2
      exact ⟨h1.symm, (prefixOfB_iff p l).mpr ⟨t, h2⟩⟩

theorem infixOfB_iff : ∀ (p l : List Char), infixOfB p l = true ↔ ∃ u t, l = u ++ p ++ t
  | p, [] => by
    simp only [infixOfB, List.isEmpty_iff]
    constructor
    · rintro rfl
      exact ⟨[], [], rfl⟩
    · rintro ⟨u, t, h⟩
      rcases List.append_eq_nil.mp (List.append_eq_nil.mp h.symm).1 with ⟨-, h2⟩
      exact h2
  | p, c :: rest => by
    simp only [infixOfB, Bool.or_eq_true]
    rw [prefixOfB_iff, infixOfB_iff p rest]
    constructor
    · rintro (⟨t, ht⟩ | ⟨u, t, ht⟩)
      · exact ⟨[], t, by simpa using ht⟩
      · exact ⟨c :: u, t, by simp [ht]⟩
    · rintro ⟨u, t, ht⟩
      cases u with
      | nil => exact Or.inl ⟨t, by simpa using ht⟩
      | cons u0 us =>
        injection ht with h1 h2
        exact Or.inr ⟨us, t, h2⟩

/-- JS `s.includes(p)` holds exactly when `s` decomposes as
`u ++ p ++ w`: literal, unanchored, case-sensitive containment. -/
theorem includesStr_iff (s pat : String) :
    includesStr s pat = true ↔ ∃ u w : String, s = u ++ pat ++ w := by
  unfold includesStr
  rw [infixOfB_iff]
  constructor
  · rintro ⟨u, t, h⟩
    refine ⟨⟨u⟩, ⟨t⟩, String.ext ?_⟩
    simp [String.data_append, h]
  · rintro ⟨u, w, rfl⟩
    exact ⟨u.data, w.data, by simp [String.data_append]⟩

/-- C5: the increment resolver returns `major` on any text containing the
literal `(MAJOR)`; else `minor` on `(MINOR)`; else `patch` (whether or
not `(PATCH)` occurs, so absence of any marker also yields `patch`).
Matching is case-sensitive literal substring containment, not anchored:
`"(MAJOR) and (PATCH)"` resolves to `major`, a marker-free text and a
lowercase `"(major)"` resolve to `patch`. -/
theorem increment_resolution_spec :
    ∀ t : String,
      ((∃ u w : String, t = u ++ "(MAJOR)" ++ w) → getIncrementLevelFromTitle t = .major) ∧
      (¬(∃ u w : String, t = u ++ "(MAJOR)" ++ w) →
        (∃ u w : String, t = u ++ "(MINOR)" ++ w) →
        getIncrementLevelFromTitle t = .minor) ∧
      (¬(∃ u w : String, t = u ++ "(MAJOR)" ++ w) →
        ¬(∃ u w : String, t = u ++ "(MINOR)" ++ w) →
        getIncrementLevelFromTitle t = .patch) ∧
      getIncrementLevelFromTitle "(MAJOR) and (PATCH)" = .major ∧
      getIncrementLevelFromTitle "fix: typo" = .patch ∧
      getIncrementLevelFromTitle "(major)" = .patch := by
  intro t
  refine ⟨?_, ?_, ?_, by decide, by decide, by decide⟩
  · intro h
    unfold getIncrementLevelFromTitle
    rw [if_pos ((includesStr_iff t "(MAJOR)").mpr h)]
  · intro h1 h2
    unfold getIncrementLevelFromTitle
    rw [if_neg (fun hc => h1 ((includesStr_iff t "(MAJOR)").mp hc)),
      if_pos ((includesStr_iff t "(MINOR)").mpr h2)]
  · intro h1 h2
    unfold getIncrementLevelFromTitle
    rw [if_neg (fun hc => h1 ((includesStr_iff t "(MAJOR)").mp hc)),
      if_neg (fun hc => h2 ((includesStr_iff t "(MINOR)").mp hc))]
    split_ifs <;> rfl

/-- Witness for C5: a text with `(MAJOR)` in the middle resolves to
`major`. -/
theorem increment_resolution_spec_witness :
    getIncrementLevelFromTitle "x(MAJOR)y" = .major :=
  (increment_resolution_spec "x(MAJOR)y").1 ⟨"x", "y", by decide⟩

/-! ### The orchestration claims -/

theorem exceptBind_ok {α β : Type} (x : α) (k : α → Except String β) :
    (Except.ok x >>= k) = k x := rfl

theorem exceptBind_error {α β : Type} (e : String) (k : α → Except String β) :
    ((Except.error e : Except String α) >>= k) = Except.error e := rfl

/-- C8: for every source selector other than "tags" or "releases", the
run fails fatally — the failure message reaches the host's
failure-reporting mechanism (`core.setFailed`) — and no output (neither
currentVersion nor nextVersion) is emitted before the failure. -/
theorem invalid_source_fails :
    ∀ cfg : RunConfig, cfg.source ≠ "tags" → cfg.source ≠ "releases" →
      run cfg = ⟨[], some (cfg.source ++ " is not a valid value for \"source\"")⟩ := by
  intro cfg h1 h2
  unfold run runCore
  rw [if_neg h1, if_neg h2]
  rfl

/-- Witness for C8: the selector `"commits"` fails with no outputs. -/
theorem invalid_source_fails_witness :
    run ⟨"commits", "", false, [], [], ""⟩ =
      ⟨[], some ("commits" ++ " is not a valid value for \"source\"")⟩ :=
  invalid_source_fails ⟨"commits", "", false, [], [], ""⟩ (by decide) (by decide)

/-- C7: when the filtered candidate set is empty (in particular when the
label list is empty) the pipeline does not fail: the baseline Version
`0.0.0` is used as currentVersion, and with no bump marker in the commit
message the emitted outputs are currentVersion `0.0.0` and nextVersion
`0.0.1` (one patch bump above zero). -/
theorem empty_candidates_baseline :
    ∀ (cfg : RunConfig) (vs : List Version),
      cfg.source = "tags" →
      cfg.tagLabels.mapM newVersion = .ok vs →
      filterAndSortVersions vs cfg.prefixStr cfg.includePrereleases = [] →
      includesStr cfg.commitMessage "(MAJOR)" = false →
      includesStr cfg.commitMessage "(MINOR)" = false →
      includesStr cfg.commitMessage "(PATCH)" = false →
      run cfg = ⟨[("currentVersion", "0.0.0"), ("nextVersion", "0.0.1")], none⟩ := by
  intro cfg vs hs hmap hfilt hM hm hp
  have hlvl : getIncrementLevelFromTitle cfg.commitMessage = .patch := by
    simp [getIncrementLevelFromTitle, hM, hm, hp]
  have h000 : newVersion "0.0.0" = .ok ⟨"0.0.0", ⟨"0.0.0", 0, 0, 0, [], []⟩⟩ := rfl
  have hbump : bumpVersion ⟨"0.0.0", ⟨"0.0.0", 0, 0, 0, [], []⟩⟩ .patch =
      .ok ⟨"0.0.1", ⟨"0.0.1", 0, 0, 1, [], []⟩⟩ := rfl
  have hcore : runCore cfg = .ok ("0.0.0", "0.0.1") := by
    unfold runCore
    rw [hs]
    rw [if_pos rfl]
    simp only [exceptBind_ok, hmap, hfilt, hlvl, h000, hbump, List.head?_nil]
  unfold run
  rw [hcore]

/-- Witness for C7: the empty label list yields `0.0.0` and `0.0.1`. -/
theorem empty_candidates_baseline_witness :
    run ⟨"tags", "", false, [], [], ""⟩ =
      ⟨[("currentVersion", "0.0.0"), ("nextVersion", "0.0.1")], none⟩ :=
  empty_candidates_baseline ⟨"tags", "", false, [], [], ""⟩ [] rfl rfl rfl rfl rfl rfl

/-- C1 (actual behaviour at scenario A): with labels
`["v1.0.0","v1.1.0","v2.0.0-beta"]`, prefix `"v"`,
includePrereleases `false` and commit message `"fix (PATCH)"`, the run
emits currentVersion `"2.0.0"` and nextVersion `"2.0.1"` — not the
`"1.1.0"`/`"1.1.1"` the specification demands.  The prerelease label is
NOT excluded: the `Version` constructor already discarded the `-beta`
suffix, so the filter's prerelease branch sees an empty prerelease
sequence and can never fire. -/
theorem scenarioA_actual :
    run ⟨"tags", "v", false, ["v1.0.0", "v1.1.0", "v2.0.0-beta"], [], "fix (PATCH)"⟩ =
      ⟨[("currentVersion", "2.0.0"), ("nextVersion", "2.0.1")], none⟩ := by
  decide

/-- C3 counterexample: at scenario B (includePrereleases `true`, commit
message `"(MAJOR) rewrite"`) the run emits currentVersion `"2.0.0"`,
which is not the claimed `"2.0.0-beta"`. -/
theorem scenarioB_counterexample :
    run ⟨"tags", "v", true, ["v1.0.0", "v1.1.0", "v2.0.0-beta"], [], "(MAJOR) rewrite"⟩ =
        ⟨[("currentVersion", "2.0.0"), ("nextVersion", "3.0.0")], none⟩ ∧
      ("2.0.0" : String) ≠ "2.0.0-beta" := by
  constructor
  · decide
  · decide

/-- C3 (amended): at scenario B the pipeline ranks `2.0.0` — the parsed
form of `v2.0.0-beta`, its prerelease discarded by the parser — above
`1.1.0`, and emits currentVersion `"2.0.0"` and nextVersion `"3.0.0"`
(the major bump of `2.0.0`). -/
theorem scenarioB_amended :
    filterAndSortVersions
        [⟨"v1.0.0", ⟨"1.0.0", 1, 0, 0, [], []⟩⟩, ⟨"v1.1.0", ⟨"1.1.0", 1, 1, 0, [], []⟩⟩,
          ⟨"v2.0.0-beta", ⟨"2.0.0", 2, 0, 0, [], []⟩⟩] "v" true =
      [⟨"v2.0.0-beta", ⟨"2.0.0", 2, 0, 0, [], []⟩⟩, ⟨"v1.1.0", ⟨"1.1.0", 1, 1, 0, [], []⟩⟩,
        ⟨"v1.0.0", ⟨"1.0.0", 1, 0, 0, [], []⟩⟩] ∧
    run ⟨"tags", "v", true, ["v1.0.0", "v1.1.0", "v2.0.0-beta"], [], "(MAJOR) rewrite"⟩ =
      ⟨[("currentVersion", "2.0.0"), ("nextVersion", "3.0.0")], none⟩ := by
  constructor
  · decide
  · decide

/-- C9 (actual behaviour): the parser is not total.  On the label
`"v01.2.3"` the regex extracts `01.2.3`, the strict `SemVer` constructor
rejects the leading-zero component and throws instead of yielding a
well-formed Version (it does not fall back to `0.0.0`), and the single
bad label makes the whole run fail with no outputs. -/
theorem parser_throws_on_leading_zero :
    newVersion "v01.2.3" = .error "Invalid Version: 01.2.3" ∧
      run ⟨"tags", "", false, ["v01.2.3"], [], ""⟩ =
        ⟨[], some "Invalid Version: 01.2.3"⟩ := by
  constructor
  · rfl
  · decide
